import Mathlib

/-!
Verification of the CoNLL-X dataset reader (`src/datasets.py`).

The Python source is shallowly embedded: strings are Lean `String`s (a
`String` is modelled by its list of characters), Python's fallible
operations return `Except`/`Option`, and the file is modelled as the list
of its lines.  Pure helpers of the Python standard library that the source
uses (`str.strip`, `str.split("\t")`, `enumerate`, dict lookup) are
embedded as small recursive functions with the same semantics.
-/

deriving instance DecidableEq for Except

/-- Model of Python `str.strip()`: remove leading and trailing whitespace. -/
def pyStrip (s : String) : String :=
  String.mk (((s.data.dropWhile Char.isWhitespace).reverse.dropWhile Char.isWhitespace).reverse)

/-- Model of Python `str.split("\t")` on the character list: splitting an
empty string gives `[""]`, and each tab separates two (possibly empty)
fields. -/
def splitTabAux : List Char → List (List Char)
  | [] => [[]]
  | c :: cs =>
    if c = '\t' then [] :: splitTabAux cs
    else
      match splitTabAux cs with
      | [] => [[c]]
      | field :: rest => (c :: field) :: rest

/-- Model of Python `string.split(_CONLL_SEPARATOR)` with `_CONLL_SEPARATOR = "\t"`. -/
def splitTab (s : String) : List String := (splitTabAux s.data).map String.mk

/-- `ConllField.ID = 0` from the `ConllField` IntEnum. -/
def ConllField.ID : Nat := 0

/-- `ConllField.FORM = 1` from the `ConllField` IntEnum. -/
def ConllField.FORM : Nat := 1

/-- `ConllField.LEMMA = 2` from the `ConllField` IntEnum. -/
def ConllField.LEMMA : Nat := 2

/-- `ConllField.UPOS = 3` from the `ConllField` IntEnum. -/
def ConllField.UPOS : Nat := 3

/-- `ConllField.XPOS = 4` from the `ConllField` IntEnum. -/
def ConllField.XPOS : Nat := 4

/-- `ConllField.FEATS = 5` from the `ConllField` IntEnum. -/
def ConllField.FEATS : Nat := 5

/-- `ConllField.HEAD = 6` from the `ConllField` IntEnum. -/
def ConllField.HEAD : Nat := 6

/-- `ConllField.DEPREL = 7` from the `ConllField` IntEnum. -/
def ConllField.DEPREL : Nat := 7

/-- `ConllField.DEPS = 8` from the `ConllField` IntEnum. -/
def ConllField.DEPS : Nat := 8

/-- `ConllField.MISC = 9` from the `ConllField` IntEnum. -/
def ConllField.MISC : Nat := 9

/-- `_CONLL_POS_MAPPING = {ConllField.FORM: 0, ConllField.UPOS: 1}` from the source. -/
def _CONLL_POS_MAPPING : List (Nat × Nat) := [(ConllField.FORM, 0), (ConllField.UPOS, 1)]

/-- The `ConllRow` NamedTuple of the source: the 10 entries of a CoNLL row. -/
structure ConllRow where
  id : String
  form : String
  «lemma» : String
  upos : String
  xpos : String
  feats : String
  head : String
  deprel : String
  deps : String
  misc : String
  deriving DecidableEq

/-- The fields of a `ConllRow` in positional (NamedTuple) order, as Python's
`enumerate(row)` iterates them. -/
def ConllRow.toList (r : ConllRow) : List String :=
  [r.id, r.form, r.«lemma», r.upos, r.xpos, r.feats, r.head, r.deprel, r.deps, r.misc]

/-- `cls(*parts)` for the 10-field NamedTuple: with exactly 10 positional
arguments it builds the row, with any other number Python raises a
TypeError, modelled as `Except.error`. -/
def rowOfFields : List String → Except String ConllRow
  | [a, b, c, d, e, f, g, h, i, j] => Except.ok ⟨a, b, c, d, e, f, g, h, i, j⟩
  | _ => Except.error ("TypeError: ConllRow takes exactly 10 positional arguments")

/-- `ConllRow.from_string`: `cls(*string.split(_CONLL_SEPARATOR))`. -/
def ConllRow.from_string (string : String) : Except String ConllRow :=
  rowOfFields (splitTab string)

/-- The loop body and final flush of the generator `_iterate_conll_sentences`,
with `rows` the accumulator.  A blank (stripped-empty) line yields the
current accumulator unconditionally; a non-blank line is parsed (a parse
failure escapes the generator); at end of input a non-empty accumulator is
flushed. -/
def iterateAux (rows : List ConllRow) : List String → Except String (List (List ConllRow))
  | [] => if rows.isEmpty then Except.ok [] else Except.ok [rows]
  | line :: rest =>
    if (pyStrip line).isEmpty then
      Except.map (fun gs => rows :: gs) (iterateAux [] rest)
    else
      match ConllRow.from_string (pyStrip line) with
      | Except.ok r => iterateAux (rows ++ [r]) rest
      | Except.error e => Except.error e

/-- `_iterate_conll_sentences(file)`: groups the lines of a CoNLL-X file into
sentences, the file given as its list of lines. -/
def _iterate_conll_sentences (file : List String) : Except String (List (List ConllRow)) :=
  iterateAux [] file

/-- Python dict lookup on an association list with distinct keys (the model
of `column_mapping[i]`, `none` when `i not in column_mapping`). -/
def dictLookup (i : Nat) : List (Nat × Nat) → Option Nat
  | [] => none
  | p :: ps => if i = p.1 then some p.2 else dictLookup i ps

/-- Model of Python `enumerate` starting at index `n`. -/
def pyEnum (n : Nat) : List String → List (Nat × String)
  | [] => []
  | x :: xs => (n, x) :: pyEnum (n + 1) xs

/-- `relevant_columns[d].append(v)`: in-place append at index `d`, an
IndexError (modelled as `none`) when `d` is out of range. -/
def appendAt (cols : List (List String)) (d : Nat) (v : String) : Option (List (List String)) :=
  if hd : d < cols.length then some (cols.set d (cols.get ⟨d, hd⟩ ++ [v])) else none

/-- One step of the inner loop of `_make_example`:
`if i in column_mapping: relevant_columns[column_mapping[i]].append(column_val)`. -/
def mapStep (cm : List (Nat × Nat)) (cols : List (List String)) (p : Nat × String) :
    Option (List (List String)) :=
  match dictLookup p.1 cm with
  | some d => appendAt cols d p.2
  | none => some cols

/-- The body of the outer loop of `_make_example`: iterate
`enumerate(row)` over the 10 fields of one row. -/
def processRow (cm : List (Nat × Nat)) (cols : List (List String)) (r : ConllRow) :
    Option (List (List String)) :=
  (pyEnum 0 r.toList).foldlM (mapStep cm) cols

/-- `ConllXDatasetPos._make_example(sentence, fields, column_mapping)`.  The
`fields` argument is torchtext consumer metadata (it does not affect which
values land in which column) and is dropped from the model; the result is
the `relevant_columns` list handed to `data.Example.fromlist`. -/
def _make_example (sentence : List ConllRow) (cm : List (Nat × Nat)) :
    Option (List (List String)) :=
  sentence.foldlM (processRow cm) (List.replicate cm.length [])

/-- `ConllXDatasetPos.__init__`: substitute the default mapping when none is
given, group the file's lines into sentences, and build one example per
sentence.  Note that the source's `__init__` never calls
`_validate_column_map`.  The `fields`/`kwargs` torchtext plumbing is
dropped; the result is the list of examples (the dataset's contents). -/
def ConllXDatasetPos_init (lines : List String) (column_mapping : Option (List (Nat × Nat))) :
    Except String (List (List (List String))) :=
  let cm := column_mapping.getD _CONLL_POS_MAPPING
  match _iterate_conll_sentences lines with
  | Except.error e => Except.error e
  | Except.ok sentences =>
    sentences.mapM (fun s =>
      match _make_example s cm with
      | some ex => Except.ok ex
      | none => Except.error ("IndexError: list index out of range"))

/-- The three `ValueError`s `_validate_column_map` can raise, each carrying
exactly the data interpolated into the corresponding f-string message. -/
inductive ColumnMapError where
  | outOfRange (offending : List Int)
  | duplicateDest (values : List Int)
  | nonContiguous (sortedValues : List Int)
  deriving DecidableEq

/-- Model of Python `sorted` on a list of ints. -/
def pySorted (l : List Int) : List Int := List.insertionSort (· ≤ ·) l

/-- Model of Python `sorted(set(l))`: the distinct elements in ascending order. -/
def pySortedSet (l : List Int) : List Int := pySorted l.dedup

/-- `ConllXDatasetPos._validate_column_map`, a static method never invoked by
`__init__`: range check on the keys, uniqueness check on the values
(`sorted(values) != sorted(set(values))`), contiguity check on the values
(`sorted(values) != list(range(len(values)))`). -/
def _validate_column_map (column_map : List (Int × Int)) : Except ColumnMapError Unit :=
  let keys := column_map.map Prod.fst
  let values := column_map.map Prod.snd
  if ¬ (∀ x ∈ keys, 0 ≤ x ∧ x < 10) then
    Except.error (ColumnMapError.outOfRange (keys.filter (fun x => decide (¬ (0 ≤ x ∧ x < 10)))))
  else if pySorted values ≠ pySortedSet values then
    Except.error (ColumnMapError.duplicateDest values)
  else if pySorted values ≠ (List.range values.length).map (fun i : Nat => (i : Int)) then
    Except.error (ColumnMapError.nonContiguous (pySorted values))
  else Except.ok ()

/-!
Specification-side definitions, used only to state properties.
-/

/-- Specification-side: the number of blank-line-delimited non-empty blocks
of the input, `inRun` recording whether the previous line was non-blank. -/
def countBlocksAux (inRun : Bool) : List String → Nat
  | [] => 0
  | l :: rest =>
    if (pyStrip l).isEmpty then countBlocksAux false rest
    else (if inRun then 0 else 1) + countBlocksAux true rest

/-- Specification-side: the number of maximal runs of non-blank lines. -/
def countBlocks (file : List String) : Nat := countBlocksAux false file

/-- Specification-side: `true` when no blank line occurs at a point where the
grouper's accumulator is empty, i.e. no leading blank line and no two
consecutive blank lines; `b` records whether the accumulator is non-empty. -/
def noBlankAtEmpty (b : Bool) : List String → Bool
  | [] => true
  | l :: rest =>
    if (pyStrip l).isEmpty then b && noBlankAtEmpty false rest
    else noBlankAtEmpty true rest

/-- Specification-side: every non-blank line splits into exactly 10
tab-separated fields. -/
def allLinesParse (lines : List String) : Bool :=
  lines.all (fun l => (pyStrip l).isEmpty || (splitTab (pyStrip l)).length == 10)

/-- Specification-side: the records parsed from the stripped non-blank lines,
in input order. -/
def conllRecords (lines : List String) : List ConllRow :=
  lines.filterMap (fun l =>
    if (pyStrip l).isEmpty then none else (ConllRow.from_string (pyStrip l)).toOption)

/-- Specification-side: the (unique, under validity) key that a column
mapping sends to destination `d`. -/
def keyOf (d : Nat) : List (Nat × Nat) → Nat
  | [] => 0
  | p :: ps => if p.2 = d then p.1 else keyOf d ps

/-- Specification-side: some line of the input is non-blank yet does not
split into exactly 10 tab-separated fields. -/
def hasUnparsableLine (lines : List String) : Bool :=
  lines.any (fun l => !(pyStrip l).isEmpty && !((splitTab (pyStrip l)).length == 10))

/-- Specification-side: the values a single row contributes to destination
column `d`, in field order (the appends `_make_example` performs on that
column while scanning one row). -/
def rowFilter (cm : List (Nat × Nat)) (r : ConllRow) (d : Nat) : List String :=
  (pyEnum 0 r.toList).filterMap
    (fun p => if dictLookup p.1 cm = some d then some p.2 else none)

/-!
Helper lemmas.
-/

theorem except_isOk_iff {ε α : Type} (e : Except ε α) :
    e.isOk = true ↔ ∃ a, e = Except.ok a := by
  cases e <;> simp [Except.isOk, Except.toBool]

theorem rowOfFields_isOk (parts : List String) :
    (rowOfFields parts).isOk = true ↔ parts.length = 10 := by
  rcases parts with _ | ⟨a, _ | ⟨b, _ | ⟨c, _ | ⟨d, _ | ⟨e, _ | ⟨f, _ | ⟨g, _ | ⟨h, _ |
    ⟨i, _ | ⟨j, _ | ⟨k, rest⟩⟩⟩⟩⟩⟩⟩⟩⟩⟩⟩ <;>
    simp [rowOfFields, Except.isOk, Except.toBool, List.length]

theorem rowOfFields_eq_ok (parts : List String) (r : ConllRow)
    (hr : rowOfFields parts = Except.ok r) : ConllRow.toList r = parts := by
  rcases parts with _ | ⟨a, _ | ⟨b, _ | ⟨c, _ | ⟨d, _ | ⟨e, _ | ⟨f, _ | ⟨g, _ | ⟨h, _ |
    ⟨i, _ | ⟨j, _ | ⟨k, rest⟩⟩⟩⟩⟩⟩⟩⟩⟩⟩⟩ <;>
    simp only [rowOfFields] at hr <;> first
      | (injection hr with hr; subst hr; rfl)
      | injection hr

/-!
Claim theorems.
-/

/-- Claim C5: `ConllRow.from_string` splits the line on the tab character;
when the split yields exactly 10 fields it returns the record whose 10
string fields are those substrings in fixed positional order, and with any
other field count it fails with an error instead of returning a record. -/
theorem from_string_spec (s : String) :
    ((ConllRow.from_string s).isOk = true ↔ (splitTab s).length = 10) ∧
    (∀ r, ConllRow.from_string s = Except.ok r → ConllRow.toList r = splitTab s) :=
  ⟨rowOfFields_isOk (splitTab s), fun r hr => rowOfFields_eq_ok (splitTab s) r hr⟩

/-- Witness for C5 at a concrete well-formed line. -/
theorem from_string_spec_witness :
    ConllRow.toList ⟨"1", "No", "_", "RB", "RB", "_", "7", "discourse", "_", "_"⟩ =
      splitTab ("1\tNo\t_\tRB\tRB\t_\t7\tdiscourse\t_\t_") :=
  (from_string_spec ("1\tNo\t_\tRB\tRB\t_\t7\tdiscourse\t_\t_")).2
    ⟨"1", "No", "_", "RB", "RB", "_", "7", "discourse", "_", "_"⟩ (by decide)

/-- Claim C1 is violated by the code: `ConllXDatasetPos.__init__` never
invokes `_validate_column_map`, so a column mapping with duplicate
destinations is accepted and the dataset is built (with silently corrupted
columns) even though the validator would reject that very mapping. -/
theorem init_accepts_invalid_mapping :
    ConllXDatasetPos_init ["1\tNo\t_\tRB\tRB\t_\t7\tdiscourse\t_\t_"] (some [(0, 0), (1, 0)]) =
      Except.ok [[["1", "No"], []]] ∧
    _validate_column_map [(0, 0), (1, 0)] =
      Except.error (ColumnMapError.duplicateDest [0, 0]) := by
  exact ⟨by decide, by decide⟩


theorem pySorted_perm (l : List Int) : List.Perm (pySorted l) l :=
  List.perm_insertionSort _ l

theorem pySorted_sorted (l : List Int) : List.Sorted (· ≤ ·) (pySorted l) :=
  List.sorted_insertionSort _ l

theorem pySorted_eq_sortedSet_iff (l : List Int) : pySorted l = pySortedSet l ↔ l.Nodup := by
  constructor
  · intro hsort
    have hperm : List.Perm l l.dedup :=
      (pySorted_perm l).symm.trans (hsort ▸ pySorted_perm l.dedup)
    exact hperm.symm.nodup (List.nodup_dedup l)
  · intro hnd
    unfold pySortedSet
    rw [List.dedup_eq_self.mpr hnd]

theorem mem_rangeMap_iff (n : Nat) (v : Int) :
    v ∈ (List.range n).map (fun i : Nat => (i : Int)) ↔ 0 ≤ v ∧ v < n := by
  constructor
  · intro hv
    obtain ⟨i, hi, hiv⟩ := List.mem_map.mp hv
    rw [List.mem_range] at hi
    have hiv' : (i : Int) = v := hiv
    omega
  · intro hv
    refine List.mem_map.mpr ⟨v.toNat, List.mem_range.mpr (by omega), ?_⟩
    show ((v.toNat : Int)) = v
    omega

theorem sorted_rangeMap (n : Nat) :
    List.Sorted (· ≤ ·) ((List.range n).map (fun i : Nat => (i : Int))) := by
  refine (List.pairwise_le_range n).map _ ?_
  intro a b hab
  show ((a : Int)) ≤ ((b : Int))
  omega

theorem nodup_rangeMap (n : Nat) : ((List.range n).map (fun i : Nat => (i : Int))).Nodup := by
  have hinj : Function.Injective (fun i : Nat => (i : Int)) := by
    intro a b hab
    have hab' : (a : Int) = b := hab
    omega
  exact List.Nodup.map hinj (List.nodup_range n)

theorem pySorted_eq_range_iff (l : List Int) (hnd : l.Nodup) :
    pySorted l = (List.range l.length).map (fun i : Nat => (i : Int)) ↔
      ∀ v : Int, v ∈ l ↔ 0 ≤ v ∧ v < l.length := by
  constructor
  · intro hsort v
    rw [← mem_rangeMap_iff l.length v, ← hsort]
    exact ⟨fun hv => (pySorted_perm l).symm.subset hv, fun hv => (pySorted_perm l).subset hv⟩
  · intro hmem
    refine List.eq_of_perm_of_sorted ?_ (pySorted_sorted l) (sorted_rangeMap l.length)
    rw [List.perm_ext_iff_of_nodup ((pySorted_perm l).nodup_iff.mpr hnd) (nodup_rangeMap _)]
    intro v
    rw [(pySorted_perm l).mem_iff, mem_rangeMap_iff, hmem]

/-- Claim C4: `_validate_column_map` raises an error if and only if the
mapping violates at least one of the three invariants — a key outside
[0,9], a destination value occurring more than once, or the destination
values not forming exactly the set {0,...,k-1} for k the number of keys —
and each raised error carries exactly the offending data interpolated into
its message (the out-of-range keys, the destination-value list, or the
sorted destination list); a mapping satisfying all three invariants passes
without error. -/
theorem validate_column_map_spec (cm : List (Int × Int)) :
    (_validate_column_map cm = Except.ok () ↔
      ((∀ x ∈ cm.map Prod.fst, 0 ≤ x ∧ x < 10) ∧ (cm.map Prod.snd).Nodup ∧
        (∀ v : Int, v ∈ cm.map Prod.snd ↔ 0 ≤ v ∧ v < cm.length))) ∧
    (∀ l, _validate_column_map cm = Except.error (ColumnMapError.outOfRange l) →
      l = (cm.map Prod.fst).filter (fun x => decide (¬ (0 ≤ x ∧ x < 10)))) ∧
    (∀ l, _validate_column_map cm = Except.error (ColumnMapError.duplicateDest l) →
      l = cm.map Prod.snd) ∧
    (∀ l, _validate_column_map cm = Except.error (ColumnMapError.nonContiguous l) →
      l = pySorted (cm.map Prod.snd)) := by
  have hlen : (cm.map Prod.snd).length = cm.length := List.length_map _ _
  simp only [_validate_column_map]
  by_cases hk : ∀ x ∈ cm.map Prod.fst, 0 ≤ x ∧ x < 10
  · rw [if_neg (not_not_intro hk)]
    by_cases hdup : pySorted (cm.map Prod.snd) = pySortedSet (cm.map Prod.snd)
    · rw [if_neg (not_not_intro hdup)]
      have hnd : (cm.map Prod.snd).Nodup := (pySorted_eq_sortedSet_iff _).mp hdup
      by_cases hrange : pySorted (cm.map Prod.snd) =
          (List.range (cm.map Prod.snd).length).map (fun i : Nat => (i : Int))
      · rw [if_neg (not_not_intro hrange)]
        have hcov := (pySorted_eq_range_iff _ hnd).mp hrange
        rw [hlen] at hcov
        exact ⟨⟨fun _ => ⟨hk, hnd, hcov⟩, fun _ => rfl⟩,
          fun l hl => by simp at hl, fun l hl => by simp at hl, fun l hl => by simp at hl⟩
      · rw [if_pos hrange]
        refine ⟨⟨fun habs => by simp at habs, ?_⟩,
          fun l hl => by simp at hl, fun l hl => by simp at hl, ?_⟩
        · rintro ⟨_, _, hcov⟩
          rw [← hlen] at hcov
          exact absurd ((pySorted_eq_range_iff _ hnd).mpr hcov) hrange
        · intro l hl
          simp only [Except.error.injEq, ColumnMapError.nonContiguous.injEq] at hl
          exact hl.symm
    · rw [if_pos hdup]
      refine ⟨⟨fun habs => by simp at habs, ?_⟩,
        fun l hl => by simp at hl, ?_, fun l hl => by simp at hl⟩
      · rintro ⟨_, hnd, _⟩
        exact absurd ((pySorted_eq_sortedSet_iff _).mpr hnd) hdup
      · intro l hl
        simp only [Except.error.injEq, ColumnMapError.duplicateDest.injEq] at hl
        exact hl.symm
  · rw [if_pos hk]
    refine ⟨⟨fun habs => by simp at habs, fun hinv => absurd hinv.1 hk⟩,
      ?_, fun l hl => by simp at hl, fun l hl => by simp at hl⟩
    intro l hl
    simp only [Except.error.injEq, ColumnMapError.outOfRange.injEq] at hl
    exact hl.symm

/-- Witness for C4: a mapping satisfying all three invariants passes
validation, the hypotheses of the characterization being discharged at the
concrete mapping FORM to 0, UPOS to 1. -/
theorem validate_column_map_spec_witness :
    _validate_column_map [((1 : Int), (0 : Int)), ((3 : Int), (1 : Int))] = Except.ok () := by
  refine (validate_column_map_spec _).1.mpr ⟨by decide, by decide, ?_⟩
  intro v
  simp only [List.map_cons, List.map_nil, List.mem_cons, List.not_mem_nil, or_false,
    List.length_cons, List.length_nil]
  omega

theorem from_string_ok_of_len {l : String} (h : (splitTab l).length = 10) :
    ∃ r, ConllRow.from_string l = Except.ok r :=
  (except_isOk_iff _).mp ((rowOfFields_isOk _).mpr h)

theorem from_string_error_of_len {l : String} (h : (splitTab l).length ≠ 10) :
    ∃ e, ConllRow.from_string l = Except.error e := by
  have hok : (ConllRow.from_string l).isOk ≠ true := fun habs =>
    h ((rowOfFields_isOk _).mp habs)
  cases hfs : ConllRow.from_string l with
  | ok r => exact absurd (by simp [hfs, Except.isOk, Except.toBool]) hok
  | error e => exact ⟨e, rfl⟩

theorem iterateAux_nonempty (lines : List String) : ∀ (rows : List ConllRow)
    (gs : List (List ConllRow)), noBlankAtEmpty (!rows.isEmpty) lines = true →
    iterateAux rows lines = Except.ok gs → gs.all (fun g => !g.isEmpty) = true := by
  induction lines with
  | nil =>
    intro rows gs _ hgs
    simp only [iterateAux] at hgs
    cases hr : rows.isEmpty
    · rw [hr] at hgs
      have hgs2 : gs = [rows] := by simpa using hgs.symm
      subst hgs2
      simp [hr]
    · rw [hr] at hgs
      have hgs2 : gs = [] := by simpa using hgs.symm
      subst hgs2
      simp
  | cons l rest ih =>
    intro rows gs hshape hgs
    cases hstrip : (pyStrip l).isEmpty
    · simp only [noBlankAtEmpty, hstrip, Bool.false_eq_true, if_false] at hshape
      simp only [iterateAux, hstrip, Bool.false_eq_true, if_false] at hgs
      cases hfs : ConllRow.from_string (pyStrip l) with
      | error e =>
        rw [hfs] at hgs
        exact absurd hgs (by simp)
      | ok r =>
        rw [hfs] at hgs
        have hne : (!(rows ++ [r]).isEmpty) = true := by simp
        exact ih (rows ++ [r]) gs (hne ▸ hshape) hgs
    · simp only [noBlankAtEmpty, hstrip, if_true, Bool.and_eq_true] at hshape
      obtain ⟨h1, h2⟩ := hshape
      have hrowsne : rows.isEmpty = false := by
        cases hre : rows.isEmpty
        · rfl
        · rw [hre] at h1
          exact absurd h1 (by simp)
      simp only [iterateAux, hstrip, if_true] at hgs
      cases hrec : iterateAux [] rest with
      | error e =>
        rw [hrec] at hgs
        exact absurd hgs (by simp [Except.map])
      | ok gsr =>
        rw [hrec] at hgs
        simp only [Except.map, Except.ok.injEq] at hgs
        subst hgs
        rw [List.all_cons]
        have hx : (!rows.isEmpty) = true := by simp [hrowsne]
        rw [hx, Bool.true_and]
        exact ih [] gsr h2 hrec

/-- Counterexample to C2 as stated: on a leading blank line
`_iterate_conll_sentences` yields the empty accumulator as a group, so the
grouper does emit an empty sentence. -/
theorem grouper_emits_empty_group :
    _iterate_conll_sentences ["", "1\tNo\t_\tRB\tRB\t_\t7\tdiscourse\t_\t_"] =
      Except.ok [[], [⟨"1", "No", "_", "RB", "RB", "_", "7", "discourse", "_", "_"⟩]] ∧
    (([[], [⟨"1", "No", "_", "RB", "RB", "_", "7", "discourse", "_", "_"⟩]] :
        List (List ConllRow)).all (fun g => !g.isEmpty)) = false := by
  exact ⟨by decide, by decide⟩

/-- Claim C2 amended: on a blank line the grouper emits the accumulator even
when it is empty, so empty groups are emitted for leading or consecutive
blank lines; every emitted group is non-empty provided no blank line occurs
while the accumulator is empty, i.e. for inputs with no leading blank line
and no two consecutive blank lines. -/
theorem grouper_groups_nonempty (lines : List String) (gs : List (List ConllRow))
    (hshape : noBlankAtEmpty false lines = true)
    (hgs : _iterate_conll_sentences lines = Except.ok gs) :
    gs.all (fun g => !g.isEmpty) = true :=
  iterateAux_nonempty lines [] gs hshape hgs

/-- Witness for the amended C2 at a concrete two-sentence input. -/
theorem grouper_groups_nonempty_witness :
    ([[⟨"1", "No", "_", "RB", "RB", "_", "7", "discourse", "_", "_"⟩],
      [⟨"1", "But", "_", "CC", "CC", "_", "33", "cc", "_", "_"⟩]] :
        List (List ConllRow)).all (fun g => !g.isEmpty) = true :=
  grouper_groups_nonempty
    ["1\tNo\t_\tRB\tRB\t_\t7\tdiscourse\t_\t_", "", "1\tBut\t_\tCC\tCC\t_\t33\tcc\t_\t_"]
    _ (by decide) (by decide)

theorem iterateAux_count (lines : List String) : ∀ (rows : List ConllRow),
    noBlankAtEmpty (!rows.isEmpty) lines = true → allLinesParse lines = true →
    Except.map List.length (iterateAux rows lines) =
      Except.ok (countBlocksAux (!rows.isEmpty) lines +
        (if rows.isEmpty then 0 else 1)) := by
  induction lines with
  | nil =>
    intro rows _ _
    cases hr : rows.isEmpty
    · simp [iterateAux, countBlocksAux, hr, Except.map]
    · simp [iterateAux, countBlocksAux, hr, Except.map]
  | cons l rest ih =>
    intro rows hshape hparse
    cases hstrip : (pyStrip l).isEmpty
    · simp only [noBlankAtEmpty, hstrip, Bool.false_eq_true, if_false] at hshape
      have hlen10 : (splitTab (pyStrip l)).length = 10 := by
        simp only [allLinesParse, List.all_cons, hstrip, Bool.false_or,
          Bool.and_eq_true] at hparse
        simpa using hparse.1
      have hparse2 : allLinesParse rest = true := by
        simp only [allLinesParse, List.all_cons, Bool.and_eq_true] at hparse
        exact hparse.2
      obtain ⟨r, hr⟩ := from_string_ok_of_len hlen10
      simp only [iterateAux, hstrip, Bool.false_eq_true, if_false, hr]
      have hne : (!(rows ++ [r]).isEmpty) = true := by simp
      have hne2 : (rows ++ [r]).isEmpty = false := by simp
      have hrec := ih (rows ++ [r]) (hne ▸ hshape) hparse2
      rw [hne, hne2] at hrec
      rw [hrec]
      simp only [countBlocksAux, hstrip, Bool.false_eq_true, if_false,
        Except.ok.injEq]
      cases hre : rows.isEmpty <;> simp <;> omega
    · simp only [noBlankAtEmpty, hstrip, if_true, Bool.and_eq_true] at hshape
      obtain ⟨h1, h2⟩ := hshape
      have hre : rows.isEmpty = false := by
        cases hre2 : rows.isEmpty
        · rfl
        · rw [hre2] at h1
          exact absurd h1 (by simp)
      have hparse2 : allLinesParse rest = true := by
        simp only [allLinesParse, List.all_cons, hstrip, Bool.true_or,
          Bool.true_and] at hparse
        exact hparse
      have hrec := ih [] h2 hparse2
      simp only [iterateAux, hstrip, if_true]
      cases hit : iterateAux [] rest with
      | error e =>
        rw [hit] at hrec
        exact absurd hrec (by simp [Except.map])
      | ok gsr =>
        rw [hit] at hrec
        simp [Except.map] at hrec
        simp [Except.map, countBlocksAux, hstrip, hre]
        omega

/-- Counterexample to C3 as stated: with two consecutive blank lines between
two one-token sentences (well-formed CoNLL-X, separators of one or more
blank lines), the grouper yields three groups while the input has two
blank-line-delimited non-empty blocks. -/
theorem sentence_count_mismatch :
    _iterate_conll_sentences
      ["1\tNo\t_\tRB\tRB\t_\t7\tdiscourse\t_\t_", "", "",
        "1\tBut\t_\tCC\tCC\t_\t33\tcc\t_\t_"] =
      Except.ok [[⟨"1", "No", "_", "RB", "RB", "_", "7", "discourse", "_", "_"⟩], [],
        [⟨"1", "But", "_", "CC", "CC", "_", "33", "cc", "_", "_"⟩]] ∧
    countBlocks
      ["1\tNo\t_\tRB\tRB\t_\t7\tdiscourse\t_\t_", "", "",
        "1\tBut\t_\tCC\tCC\t_\t33\tcc\t_\t_"] = 2 ∧
    (3 : Nat) ≠ 2 := by
  exact ⟨by decide, by decide, by decide⟩

/-- Claim C3 amended: for well-formed input in which every blank line is
immediately preceded by a non-blank line (no leading blank line, no two
consecutive blank lines; single-blank-line separators, trailing blank line
still optional), the number of groups yielded equals the number of
blank-line-delimited non-empty blocks; with repeated or leading blank
lines the grouper yields extra empty groups. -/
theorem sentence_count_eq_block_count (lines : List String)
    (hshape : noBlankAtEmpty false lines = true)
    (hparse : allLinesParse lines = true) :
    Except.map List.length (_iterate_conll_sentences lines) =
      Except.ok (countBlocks lines) := by
  have h := iterateAux_count lines [] hshape hparse
  simpa [countBlocks] using h

/-- Witness for the amended C3: a two-block input with a single separating
blank line and no trailing blank line has exactly two groups. -/
theorem sentence_count_eq_block_count_witness :
    Except.map List.length (_iterate_conll_sentences
      ["1\tNo\t_\tRB\tRB\t_\t7\tdiscourse\t_\t_", "",
        "1\tBut\t_\tCC\tCC\t_\t33\tcc\t_\t_"]) =
      Except.ok (countBlocks
        ["1\tNo\t_\tRB\tRB\t_\t7\tdiscourse\t_\t_", "",
          "1\tBut\t_\tCC\tCC\t_\t33\tcc\t_\t_"]) ∧
    countBlocks
      ["1\tNo\t_\tRB\tRB\t_\t7\tdiscourse\t_\t_", "",
        "1\tBut\t_\tCC\tCC\t_\t33\tcc\t_\t_"] = 2 := by
  refine ⟨sentence_count_eq_block_count _ (by decide) (by decide), by decide⟩

theorem iterateAux_join (lines : List String) : ∀ (rows : List ConllRow),
    allLinesParse lines = true →
    Except.map List.flatten (iterateAux rows lines) =
      Except.ok (rows ++ conllRecords lines) := by
  induction lines with
  | nil =>
    intro rows _
    cases hr : rows.isEmpty
    · simp [iterateAux, hr, Except.map, conllRecords]
    · have : rows = [] := List.isEmpty_iff.mp hr
      subst this
      simp [iterateAux, Except.map, conllRecords]
  | cons l rest ih =>
    intro rows hparse
    cases hstrip : (pyStrip l).isEmpty
    · have hlen10 : (splitTab (pyStrip l)).length = 10 := by
        simp only [allLinesParse, List.all_cons, hstrip, Bool.false_or,
          Bool.and_eq_true] at hparse
        simpa using hparse.1
      have hparse2 : allLinesParse rest = true := by
        simp only [allLinesParse, List.all_cons, Bool.and_eq_true] at hparse
        exact hparse.2
      obtain ⟨r, hr⟩ := from_string_ok_of_len hlen10
      simp only [iterateAux, hstrip, Bool.false_eq_true, if_false, hr]
      have hrec := ih (rows ++ [r]) hparse2
      rw [hrec]
      simp only [conllRecords, List.filterMap_cons, hstrip, Bool.false_eq_true, if_false,
        hr, Except.toOption, Except.ok.injEq]
      simp [conllRecords]
    · have hparse2 : allLinesParse rest = true := by
        simp only [allLinesParse, List.all_cons, hstrip, Bool.true_or,
          Bool.true_and] at hparse
        exact hparse
      have hrec := ih [] hparse2
      simp only [iterateAux, hstrip, if_true]
      cases hit : iterateAux [] rest with
      | error e =>
        rw [hit] at hrec
        exact absurd hrec (by simp [Except.map])
      | ok gsr =>
        rw [hit] at hrec
        simp only [Except.map, Except.ok.injEq, List.nil_append] at hrec
        simp only [Except.map, Except.ok.injEq, List.flatten_cons, hrec]
        simp [conllRecords, List.filterMap_cons, hstrip]

/-- Claim C9: when every non-blank line parses, concatenating the groups
yielded by `_iterate_conll_sentences`, in yield order, gives exactly the
records parsed from the stripped non-blank lines in input order — grouping
never drops, duplicates, or reorders a record, however blank lines are
placed. -/
theorem grouping_preserves_records (lines : List String)
    (hparse : allLinesParse lines = true) :
    Except.map List.flatten (_iterate_conll_sentences lines) =
      Except.ok (conllRecords lines) := by
  simpa using iterateAux_join lines [] hparse

/-- Witness for C9 on an input with leading, separating and consecutive
blank lines. -/
theorem grouping_preserves_records_witness :
    Except.map List.flatten (_iterate_conll_sentences
      ["", "1\tNo\t_\tRB\tRB\t_\t7\tdiscourse\t_\t_", "", "",
        "1\tBut\t_\tCC\tCC\t_\t33\tcc\t_\t_"]) =
      Except.ok (conllRecords
        ["", "1\tNo\t_\tRB\tRB\t_\t7\tdiscourse\t_\t_", "", "",
          "1\tBut\t_\tCC\tCC\t_\t33\tcc\t_\t_"]) ∧
    conllRecords
      ["", "1\tNo\t_\tRB\tRB\t_\t7\tdiscourse\t_\t_", "", "",
        "1\tBut\t_\tCC\tCC\t_\t33\tcc\t_\t_"] =
      [⟨"1", "No", "_", "RB", "RB", "_", "7", "discourse", "_", "_"⟩,
        ⟨"1", "But", "_", "CC", "CC", "_", "33", "cc", "_", "_"⟩] := by
  refine ⟨grouping_preserves_records _ (by decide), by decide⟩

theorem iterateAux_error_of_bad (lines : List String) : ∀ (rows : List ConllRow),
    hasUnparsableLine lines = true → (iterateAux rows lines).isOk = false := by
  induction lines with
  | nil =>
    intro rows hbad
    exact absurd hbad (by simp [hasUnparsableLine])
  | cons l rest ih =>
    intro rows hbad
    cases hstrip : (pyStrip l).isEmpty
    · cases hlen : (splitTab (pyStrip l)).length == 10
      · obtain ⟨e, he⟩ := from_string_error_of_len (by simpa using hlen)
        simp [iterateAux, hstrip, he, Except.isOk, Except.toBool]
      · have hrest : hasUnparsableLine rest = true := by
          simp only [hasUnparsableLine, List.any_cons, hstrip, hlen] at hbad ⊢
          simpa using hbad
        obtain ⟨r, hr⟩ := from_string_ok_of_len (by simpa using hlen)
        simp only [iterateAux, hstrip, Bool.false_eq_true, if_false, hr]
        exact ih (rows ++ [r]) hrest
    · have hrest : hasUnparsableLine rest = true := by
        simp only [hasUnparsableLine, List.any_cons, hstrip] at hbad ⊢
        simpa using hbad
      simp only [iterateAux, hstrip, if_true]
      cases hit : iterateAux [] rest with
      | error e => simp [Except.map, Except.isOk, Except.toBool]
      | ok gsr =>
        have := ih [] hrest
        rw [hit] at this
        exact absurd this (by simp [Except.isOk, Except.toBool])

/-- Claim C8: if some line of the input is non-blank but does not split into
exactly 10 tab-separated fields, dataset construction aborts with the
error: `ConllXDatasetPos.__init__` returns no dataset value, in particular
no partial dataset of the sentences parsed so far, whatever column mapping
is supplied. -/
theorem parse_error_aborts_dataset (lines : List String)
    (cmOpt : Option (List (Nat × Nat))) (hbad : hasUnparsableLine lines = true) :
    (ConllXDatasetPos_init lines cmOpt).isOk = false := by
  have herr := iterateAux_error_of_bad lines [] hbad
  unfold ConllXDatasetPos_init
  cases hit : _iterate_conll_sentences lines with
  | error e => simp [Except.isOk, Except.toBool]
  | ok sentences =>
    unfold _iterate_conll_sentences at hit
    rw [hit] at herr
    exact absurd herr (by simp [Except.isOk, Except.toBool])

/-- Witness for C8: a two-field line aborts construction under the default
mapping. -/
theorem parse_error_aborts_dataset_witness :
    (ConllXDatasetPos_init ["1\tNo"] none).isOk = false :=
  parse_error_aborts_dataset ["1\tNo"] none (by decide)

theorem processRow_default (r : ConllRow) (c0 c1 : List String) :
    processRow _CONLL_POS_MAPPING [c0, c1] r = some [c0 ++ [r.form], c1 ++ [r.upos]] := rfl

theorem foldProcess_default (s : List ConllRow) : ∀ (c0 c1 : List String),
    s.foldlM (processRow _CONLL_POS_MAPPING) [c0, c1] =
      some [c0 ++ s.map ConllRow.form, c1 ++ s.map ConllRow.upos] := by
  induction s with
  | nil =>
    intro c0 c1
    simp
  | cons r rest ih =>
    intro c0 c1
    rw [List.foldlM_cons, processRow_default]
    show rest.foldlM (processRow _CONLL_POS_MAPPING) [c0 ++ [r.form], c1 ++ [r.upos]] =
      some [c0 ++ (r :: rest).map ConllRow.form, c1 ++ (r :: rest).map ConllRow.upos]
    rw [ih (c0 ++ [r.form]) (c1 ++ [r.upos])]
    simp

/-- Claim C7: when the caller supplies no column mapping the default
FORM-to-0, UPOS-to-1 mapping is used, and applying it to a sentence yields
an example whose column 0 is the forms and whose column 1 is the UPOS tags,
in token order. -/
theorem default_mapping_round_trip :
    (∀ lines, ConllXDatasetPos_init lines none =
      ConllXDatasetPos_init lines (some _CONLL_POS_MAPPING)) ∧
    (∀ s : List ConllRow, _make_example s _CONLL_POS_MAPPING =
      some [s.map ConllRow.form, s.map ConllRow.upos]) := by
  refine ⟨fun lines => rfl, fun s => ?_⟩
  have h := foldProcess_default s [] []
  simpa [_make_example] using h

theorem dictLookup_mem : ∀ {cm : List (Nat × Nat)} {i d : Nat},
    dictLookup i cm = some d → (i, d) ∈ cm := by
  intro cm
  induction cm with
  | nil => intro i d h; simp [dictLookup] at h
  | cons p ps ih =>
    intro i d h
    simp only [dictLookup] at h
    by_cases hip : i = p.1
    · rw [if_pos hip] at h
      injection h with h
      subst hip
      subst h
      exact List.mem_cons_self _ _
    · rw [if_neg hip] at h
      exact List.mem_cons_of_mem _ (ih h)

theorem mem_dictLookup : ∀ {cm : List (Nat × Nat)}, (cm.map Prod.fst).Nodup →
    ∀ {i d : Nat}, (i, d) ∈ cm → dictLookup i cm = some d := by
  intro cm
  induction cm with
  | nil => intro _ i d h; simp at h
  | cons p ps ih =>
    intro hnd i d h
    simp only [List.map_cons, List.nodup_cons] at hnd
    rcases List.mem_cons.mp h with heq | htail
    · subst heq
      simp [dictLookup]
    · have hip : i ≠ p.1 := by
        intro hip
        exact hnd.1 (hip ▸ List.mem_map_of_mem Prod.fst htail)
      simp only [dictLookup, if_neg hip]
      exact ih hnd.2 htail

theorem snd_nodup_unique : ∀ {cm : List (Nat × Nat)}, (cm.map Prod.snd).Nodup →
    ∀ {i j d : Nat}, (i, d) ∈ cm → (j, d) ∈ cm → i = j := by
  intro cm
  induction cm with
  | nil => intro _ i j d h; simp at h
  | cons p ps ih =>
    intro hnd i j d hi hj
    simp only [List.map_cons, List.nodup_cons] at hnd
    rcases List.mem_cons.mp hi with heqi | htaili
    · rcases List.mem_cons.mp hj with heqj | htailj
      · rw [← heqj] at heqi
        exact congrArg Prod.fst heqi
      · have hpd : p.2 = d := by rw [← heqi]
        have hd : d ∈ ps.map Prod.snd := List.mem_map_of_mem Prod.snd htailj
        exact absurd (show p.2 ∈ ps.map Prod.snd by rw [hpd]; exact hd) hnd.1
    · rcases List.mem_cons.mp hj with heqj | htailj
      · have hpd : p.2 = d := by rw [← heqj]
        have hd : d ∈ ps.map Prod.snd := List.mem_map_of_mem Prod.snd htaili
        exact absurd (show p.2 ∈ ps.map Prod.snd by rw [hpd]; exact hd) hnd.1
      · exact ih hnd.2 htaili htailj

theorem keyOf_mem : ∀ {cm : List (Nat × Nat)} {d : Nat},
    d ∈ cm.map Prod.snd → (keyOf d cm, d) ∈ cm := by
  intro cm
  induction cm with
  | nil => intro d h; simp at h
  | cons p ps ih =>
    intro d h
    by_cases hpd : p.2 = d
    · simp only [keyOf, if_pos hpd]
      exact hpd ▸ List.mem_cons_self _ _
    · simp only [keyOf, if_neg hpd]
      rcases List.mem_cons.mp ((List.map_cons Prod.snd p ps) ▸ h) with heq | htail
      · exact absurd heq.symm hpd
      · exact List.mem_cons_of_mem _ (ih htail)

theorem foldMapStep_spec (cm : List (Nat × Nat)) (hvlt : ∀ p ∈ cm, p.2 < cm.length) :
    ∀ (ps : List (Nat × String)) (cols : List (List String)), cols.length = cm.length →
    ∃ cols', ps.foldlM (mapStep cm) cols = some cols' ∧ cols'.length = cm.length ∧
      ∀ d (hd : d < cols'.length) (hd2 : d < cols.length),
        cols'.get ⟨d, hd⟩ = cols.get ⟨d, hd2⟩ ++
          ps.filterMap (fun q => if dictLookup q.1 cm = some d then some q.2 else none) := by
  intro ps
  induction ps with
  | nil =>
    intro cols hcols
    refine ⟨cols, by simp, hcols, ?_⟩
    intro d hd hd2
    simp
  | cons p ps ih =>
    intro cols hcols
    cases hl : dictLookup p.1 cm with
    | none =>
      have hstep : mapStep cm cols p = some cols := by simp [mapStep, hl]
      have hfold : (p :: ps).foldlM (mapStep cm) cols = ps.foldlM (mapStep cm) cols := by
        rw [List.foldlM_cons, hstep]
        rfl
      obtain ⟨cols', h1, h2, h3⟩ := ih cols hcols
      refine ⟨cols', by rw [hfold]; exact h1, h2, ?_⟩
      intro d hd hd2
      have hfm : (p :: ps).filterMap
          (fun q => if dictLookup q.1 cm = some d then some q.2 else none) =
          ps.filterMap (fun q => if dictLookup q.1 cm = some d then some q.2 else none) := by
        rw [List.filterMap_cons]
        rw [hl]
        simp
      rw [hfm]
      exact h3 d hd hd2
    | some d0 =>
      have hmem := dictLookup_mem hl
      have hd0 : d0 < cm.length := hvlt _ hmem
      have hd0' : d0 < cols.length := by rw [hcols]; exact hd0
      have hstep : mapStep cm cols p =
          some (cols.set d0 (cols.get ⟨d0, hd0'⟩ ++ [p.2])) := by
        simp [mapStep, hl, appendAt, dif_pos hd0']
      have hlen2 : (cols.set d0 (cols.get ⟨d0, hd0'⟩ ++ [p.2])).length = cm.length := by
        rw [List.length_set]
        exact hcols
      obtain ⟨cols', h1, h2, h3⟩ := ih _ hlen2
      have hfold : (p :: ps).foldlM (mapStep cm) cols =
          ps.foldlM (mapStep cm) (cols.set d0 (cols.get ⟨d0, hd0'⟩ ++ [p.2])) := by
        rw [List.foldlM_cons, hstep]
        rfl
      refine ⟨cols', by rw [hfold]; exact h1, h2, ?_⟩
      intro d hd hd2
      have hd2' : d < (cols.set d0 (cols.get ⟨d0, hd0'⟩ ++ [p.2])).length := by
        rw [hlen2, ← hcols]
        exact hd2
      rw [h3 d hd hd2']
      by_cases hdd : d = d0
      · subst hdd
        have hget2 : (cols.set d (cols.get ⟨d, hd0'⟩ ++ [p.2])).get ⟨d, hd2'⟩ =
            cols.get ⟨d, hd2⟩ ++ [p.2] := by
          rw [List.get_set]
          simp
        rw [hget2]
        have hfm : (p :: ps).filterMap
            (fun q => if dictLookup q.1 cm = some d then some q.2 else none) =
            p.2 :: ps.filterMap
              (fun q => if dictLookup q.1 cm = some d then some q.2 else none) := by
          rw [List.filterMap_cons]
          rw [hl]
          simp
        rw [hfm]
        simp
      · have hget2 : (cols.set d0 (cols.get ⟨d0, hd0'⟩ ++ [p.2])).get ⟨d, hd2'⟩ =
            cols.get ⟨d, hd2⟩ := by
          rw [List.get_set]
          rw [if_neg (fun h => hdd h.symm)]
        rw [hget2]
        have hfm : (p :: ps).filterMap
            (fun q => if dictLookup q.1 cm = some d then some q.2 else none) =
            ps.filterMap (fun q => if dictLookup q.1 cm = some d then some q.2 else none) := by
          rw [List.filterMap_cons]
          rw [hl]
          rw [if_neg (fun h => hdd (Option.some.inj h).symm)]
        rw [hfm]

theorem filterMap_pyEnum_none (cm : List (Nat × Nat)) (d : Nat) : ∀ (xs : List String)
    (n : Nat), (∀ j, n ≤ j → dictLookup j cm ≠ some d) →
    (pyEnum n xs).filterMap
      (fun q => if dictLookup q.1 cm = some d then some q.2 else none) = [] := by
  intro xs
  induction xs with
  | nil => intro n _; simp [pyEnum]
  | cons x xs ih =>
    intro n hnone
    simp only [pyEnum, List.filterMap_cons]
    rw [if_neg (hnone n (Nat.le_refl n))]
    exact ih (n + 1) (fun j hj => hnone j (by omega))

theorem filterMap_pyEnum_single (cm : List (Nat × Nat)) (d i : Nat)
    (h1 : dictLookup i cm = some d) (huniq : ∀ j, dictLookup j cm = some d → j = i) :
    ∀ (xs : List String) (n : Nat), n ≤ i → i < n + xs.length →
    (pyEnum n xs).filterMap
      (fun q => if dictLookup q.1 cm = some d then some q.2 else none) =
      [xs.getD (i - n) ("")] := by
  intro xs
  induction xs with
  | nil =>
    intro n hni hlt
    simp only [List.length_nil] at hlt
    omega
  | cons x xs ih =>
    intro n hni hlt
    simp only [pyEnum, List.filterMap_cons]
    by_cases hni2 : n = i
    · subst hni2
      rw [if_pos h1]
      have htail : (pyEnum (n + 1) xs).filterMap
          (fun q => if dictLookup q.1 cm = some d then some q.2 else none) = [] := by
        refine filterMap_pyEnum_none cm d xs (n + 1) ?_
        intro j hj habs
        have := huniq j habs
        omega
      rw [htail]
      simp
    · have hlt2 : n < i := Nat.lt_of_le_of_ne hni hni2
      rw [if_neg (fun habs => hni2 (huniq n habs))]
      have := ih (n + 1) (by omega) (by simp only [List.length_cons] at hlt; omega)
      rw [this]
      have hsub : i - n = (i - (n + 1)) + 1 := by omega
      rw [hsub, List.getD_cons_succ]

theorem foldProcessRow_spec (cm : List (Nat × Nat)) (hvlt : ∀ p ∈ cm, p.2 < cm.length) :
    ∀ (s : List ConllRow) (cols : List (List String)), cols.length = cm.length →
    ∃ cols', s.foldlM (processRow cm) cols = some cols' ∧ cols'.length = cm.length ∧
      ∀ d (hd : d < cols'.length) (hd2 : d < cols.length),
        cols'.get ⟨d, hd⟩ = cols.get ⟨d, hd2⟩ ++
          (s.map (fun r => rowFilter cm r d)).flatten := by
  intro s
  induction s with
  | nil =>
    intro cols hcols
    refine ⟨cols, by simp, hcols, ?_⟩
    intro d hd hd2
    simp
  | cons r rest ih =>
    intro cols hcols
    obtain ⟨cols1, hp1, hp2, hp3⟩ := foldMapStep_spec cm hvlt (pyEnum 0 r.toList) cols hcols
    have hpr : processRow cm cols r = some cols1 := hp1
    have hfold : (r :: rest).foldlM (processRow cm) cols =
        rest.foldlM (processRow cm) cols1 := by
      rw [List.foldlM_cons, hpr]
      rfl
    obtain ⟨cols', h1, h2, h3⟩ := ih cols1 hp2
    refine ⟨cols', by rw [hfold]; exact h1, h2, ?_⟩
    intro d hd hd2
    have hd1 : d < cols1.length := by rw [hp2, ← hcols]; exact hd2
    rw [h3 d hd hd1, hp3 d hd1 hd2]
    show (cols.get ⟨d, hd2⟩ ++ rowFilter cm r d) ++
        (rest.map (fun q => rowFilter cm q d)).flatten = _
    rw [List.map_cons, List.flatten_cons, List.append_assoc]

theorem flatten_map_singleton {α β : Type} (g : α → β) : ∀ l : List α,
    (l.map (fun x => [g x])).flatten = l.map g := by
  intro l
  induction l with
  | nil => simp
  | cons x xs ih => simp [ih]

theorem conllRow_toList_length (r : ConllRow) : r.toList.length = 10 := rfl

/-- Claim C6: for every sentence and every column mapping satisfying the
validation invariants (keys in [0,9], distinct destinations forming
exactly the set {0,...,k-1}; keys distinct as in any Python dict),
`_make_example` produces exactly k destination columns, column d being the
mapped field of each record in token order, so each column's length equals
the number of records in the sentence. -/
theorem make_example_spec (cm : List (Nat × Nat)) (s : List ConllRow)
    (hknd : (cm.map Prod.fst).Nodup)
    (hk10 : ∀ p ∈ cm, p.1 < 10)
    (hvnd : (cm.map Prod.snd).Nodup)
    (hvlt : ∀ p ∈ cm, p.2 < cm.length)
    (hcover : ∀ d, d < cm.length → d ∈ cm.map Prod.snd) :
    _make_example s cm =
      some ((List.range cm.length).map
        (fun d => s.map (fun r => r.toList.getD (keyOf d cm) ("")))) ∧
    ((List.range cm.length).map
        (fun d => s.map (fun r => r.toList.getD (keyOf d cm) ("")))).all
      (fun c => c.length == s.length) = true := by
  obtain ⟨cols', h1, h2, h3⟩ := foldProcessRow_spec cm hvlt s
    (List.replicate cm.length []) (List.length_replicate _ _)
  constructor
  · show s.foldlM (processRow cm) (List.replicate cm.length []) = _
    rw [h1]
    congr 1
    refine List.ext_get ?_ ?_
    · rw [h2]
      simp
    · intro n hn1 hn2
      have hnk : n < cm.length := by rw [← h2]; exact hn1
      have hrep : n < (List.replicate cm.length ([] : List String)).length := by
        simp [hnk]
      rw [h3 n hn1 hrep, List.get_replicate, List.nil_append]
      have hrhs : ((List.range cm.length).map
          (fun d => s.map (fun r => r.toList.getD (keyOf d cm) ("")))).get ⟨n, hn2⟩ =
          s.map (fun r => r.toList.getD (keyOf n cm) ("")) := by
        simp only [List.get_eq_getElem, List.getElem_map, List.getElem_range]
      rw [hrhs]
      have hioc : (keyOf n cm, n) ∈ cm := keyOf_mem (hcover n hnk)
      have hlook : dictLookup (keyOf n cm) cm = some n := mem_dictLookup hknd hioc
      have huniq : ∀ j, dictLookup j cm = some n → j = keyOf n cm := fun j hj =>
        snd_nodup_unique hvnd (dictLookup_mem hj) hioc
      have hk10' : keyOf n cm < 10 := hk10 _ hioc
      have hrf : ∀ r : ConllRow, rowFilter cm r n = [r.toList.getD (keyOf n cm) ("")] := by
        intro r
        have := filterMap_pyEnum_single cm n (keyOf n cm) hlook huniq r.toList 0
          (Nat.zero_le _) (by rw [conllRow_toList_length]; omega)
        simpa [rowFilter] using this
      rw [List.map_congr_left (fun r _ => hrf r), flatten_map_singleton]
  · simp [List.all_eq_true]

/-- Witness for C6 at the default mapping and a concrete two-token sentence. -/
theorem make_example_spec_witness :
    _make_example
      [⟨"1", "No", "_", "RB", "RB", "_", "7", "discourse", "_", "_"⟩,
        ⟨"2", ",", "_", ",", ",", "_", "7", "punct", "_", "_"⟩] _CONLL_POS_MAPPING =
      some ((List.range _CONLL_POS_MAPPING.length).map
        (fun d => ([⟨"1", "No", "_", "RB", "RB", "_", "7", "discourse", "_", "_"⟩,
          ⟨"2", ",", "_", ",", ",", "_", "7", "punct", "_", "_"⟩] : List ConllRow).map
            (fun r => r.toList.getD (keyOf d _CONLL_POS_MAPPING) ("")))) ∧
    ((List.range _CONLL_POS_MAPPING.length).map
        (fun d => ([⟨"1", "No", "_", "RB", "RB", "_", "7", "discourse", "_", "_"⟩,
          ⟨"2", ",", "_", ",", ",", "_", "7", "punct", "_", "_"⟩] : List ConllRow).map
            (fun r => r.toList.getD (keyOf d _CONLL_POS_MAPPING) ("")))).all
      (fun c => c.length ==
        ([⟨"1", "No", "_", "RB", "RB", "_", "7", "discourse", "_", "_"⟩,
          ⟨"2", ",", "_", ",", ",", "_", "7", "punct", "_", "_"⟩] : List ConllRow).length) =
      true :=
  make_example_spec _CONLL_POS_MAPPING
    [⟨"1", "No", "_", "RB", "RB", "_", "7", "discourse", "_", "_"⟩,
      ⟨"2", ",", "_", ",", ",", "_", "7", "punct", "_", "_"⟩]
    (by decide) (by decide) (by decide) (by decide) (by decide)

theorem foldMapStep_congr (cm : List (Nat × Nat)) : ∀ {xs ys : List (Nat × String)},
    List.Forall₂ (fun p q => p.1 = q.1 ∧
      (∀ d, dictLookup p.1 cm = some d → p.2 = q.2)) xs ys →
    ∀ cols, xs.foldlM (mapStep cm) cols = ys.foldlM (mapStep cm) cols := by
  intro xs ys h
  induction h with
  | nil => intro cols; rfl
  | @cons p q xs2 ys2 hpq htail ih =>
    intro cols
    obtain ⟨h1, h2⟩ := hpq
    rw [List.foldlM_cons, List.foldlM_cons]
    have hstep : mapStep cm cols p = mapStep cm cols q := by
      simp only [mapStep, ← h1]
      cases hl : dictLookup p.1 cm with
      | some d => rw [h2 d hl]
      | none => rfl
    rw [hstep]
    cases mapStep cm cols q with
    | none => rfl
    | some c => exact ih c

theorem processRow_congr (cm : List (Nat × Nat)) (r r' : ConllRow)
    (h : ∀ i ∈ cm.map Prod.fst, r.toList.getD i ("") = r'.toList.getD i ("")) :
    ∀ cols, processRow cm cols r = processRow cm cols r' := by
  have key : ∀ j d, dictLookup j cm = some d →
      r.toList.getD j ("") = r'.toList.getD j ("") := by
    intro j d hj
    exact h j (List.mem_map_of_mem Prod.fst (dictLookup_mem hj))
  intro cols
  apply foldMapStep_congr
  exact List.Forall₂.cons ⟨rfl, fun d hd => key 0 d hd⟩
    (List.Forall₂.cons ⟨rfl, fun d hd => key 1 d hd⟩
      (List.Forall₂.cons ⟨rfl, fun d hd => key 2 d hd⟩
        (List.Forall₂.cons ⟨rfl, fun d hd => key 3 d hd⟩
          (List.Forall₂.cons ⟨rfl, fun d hd => key 4 d hd⟩
            (List.Forall₂.cons ⟨rfl, fun d hd => key 5 d hd⟩
              (List.Forall₂.cons ⟨rfl, fun d hd => key 6 d hd⟩
                (List.Forall₂.cons ⟨rfl, fun d hd => key 7 d hd⟩
                  (List.Forall₂.cons ⟨rfl, fun d hd => key 8 d hd⟩
                    (List.Forall₂.cons ⟨rfl, fun d hd => key 9 d hd⟩
                      List.Forall₂.nil)))))))))

theorem foldProcess_congr (cm : List (Nat × Nat)) : ∀ {s t : List ConllRow},
    List.Forall₂ (fun r r' => ∀ i ∈ cm.map Prod.fst,
      r.toList.getD i ("") = r'.toList.getD i ("")) s t →
    ∀ cols, s.foldlM (processRow cm) cols = t.foldlM (processRow cm) cols := by
  intro s t h
  induction h with
  | nil => intro cols; rfl
  | @cons r r' s2 t2 hrr htail ih =>
    intro cols
    rw [List.foldlM_cons, List.foldlM_cons, processRow_congr cm r r' hrr cols]
    cases processRow cm cols r' with
    | none => rfl
    | some c => exact ih c

/-- Claim C10: for a validated column mapping, `_make_example` depends only
on the record fields whose index is a key of the mapping — two sentences
that agree token by token on every mapped field produce the same columns,
whatever the unmapped fields contain. -/
theorem make_example_mapped_fields_only (cm : List (Nat × Nat)) (s t : List ConllRow)
    (hk10 : ∀ p ∈ cm, p.1 < 10)
    (hvnd : (cm.map Prod.snd).Nodup)
    (hvlt : ∀ p ∈ cm, p.2 < cm.length)
    (hcover : ∀ d, d < cm.length → d ∈ cm.map Prod.snd)
    (hagree : List.Forall₂ (fun r r' => ∀ i ∈ cm.map Prod.fst,
      r.toList.getD i ("") = r'.toList.getD i ("")) s t) :
    _make_example s cm = _make_example t cm :=
  foldProcess_congr cm hagree _

/-- Witness for C10: two one-token sentences agreeing on FORM and UPOS but
differing in every unmapped field yield the same example under the default
mapping. -/
theorem make_example_mapped_fields_only_witness :
    _make_example [⟨"1", "No", "_", "RB", "RB", "_", "7", "discourse", "_", "_"⟩]
        _CONLL_POS_MAPPING =
      _make_example [⟨"2", "No", "zz", "RB", "XX", "+f", "0", "root", "x", "y"⟩]
        _CONLL_POS_MAPPING :=
  make_example_mapped_fields_only _CONLL_POS_MAPPING
    [⟨"1", "No", "_", "RB", "RB", "_", "7", "discourse", "_", "_"⟩]
    [⟨"2", "No", "zz", "RB", "XX", "+f", "0", "root", "x", "y"⟩]
    (by decide) (by decide) (by decide) (by decide)
    (List.Forall₂.cons (by decide) List.Forall₂.nil)
